import Mathlib

/-!
Verification of the TaskListReducer from the todo-list example
(`src/Workshop2/Example/todo-list/src/App.js`):

```js
function reducer(state,action){
  switch(action.type){
    case 'ADD_TASK':
      return [...state,action.payload];
    case 'DELETE_TASK':
      return state.filter((task)=>task.title!==action.payload);
    default:
      return state;
  }
}
```

The state is a JavaScript array of values; the component only ever stores
task objects `{title, description}` in it, but the payload of an action is
dynamically typed (a task object for `ADD_TASK`, a title string for
`DELETE_TASK`).  We embed JavaScript values that can occur here as `JSVal`
(a task object or a string), the property access `task.title` as an
`Option String` (`none` standing for `undefined` when the value has no such
property), and the strict inequality `task.title !== action.payload` by its
JavaScript semantics: two strings compare by contents; values of different
runtime types are always strictly unequal.
-/

namespace TodoApp

/-- A task object `{title, description}` as built by the form handler. -/
structure Task where
  title : String
  description : String
deriving DecidableEq, Repr

/-- A JavaScript value that can occur as a list element or action payload
in this program: a task object or a string. -/
inductive JSVal where
  | vtask (t : Task)
  | vstr (s : String)
deriving DecidableEq, Repr

/-- An action `{type, payload}` as dispatched to the reducer. -/
structure Action where
  type : String
  payload : JSVal
deriving DecidableEq, Repr

/-- JavaScript property access `v.title`: a task object has the property,
a string does not (the access yields `undefined`, embedded as `none`). -/
def JSVal.titleProp : JSVal → Option String
  | .vtask t => some t.title
  | .vstr _ => none

/-- JavaScript strict inequality `a !== b` where `a` is the result of a
`.title` access (`none` = `undefined`) and `b` is the action payload.
Strings compare by contents; operands of different runtime types
(string vs object, undefined vs anything) are always strictly unequal. -/
def strictNeq : Option String → JSVal → Bool
  | some s, .vstr p => s ≠ p
  | some _, .vtask _ => true
  | none, _ => true

/-- The reducer: `switch(action.type)` with cases `'ADD_TASK'`
(`[...state, action.payload]`), `'DELETE_TASK'`
(`state.filter((task)=>task.title!==action.payload)`) and a default
returning `state`.  A JS `switch` compares the scrutinee to each case
label with strict equality, i.e. exact case-sensitive string comparison. -/
def reducer (state : List JSVal) (action : Action) : List JSVal :=
  if action.type = "ADD_TASK" then
    state ++ [action.payload]
  else if action.type = "DELETE_TASK" then
    state.filter (fun task => strictNeq task.titleProp action.payload)
  else
    state

/-- The `ADD_TASK` action the form submit handler dispatches. -/
def addTask (t : Task) : Action := ⟨"ADD_TASK", .vtask t⟩

/-- The `DELETE_TASK` action the delete-button handler dispatches:
its payload is the task's title string. -/
def deleteTask (k : String) : Action := ⟨"DELETE_TASK", .vstr k⟩

/-- A component state holding only task objects, as the app maintains
(the form only ever dispatches `ADD_TASK` with a task-object payload). -/
def taskList (l : List Task) : List JSVal := l.map JSVal.vtask

/-!
Heap model for the immutability contract: JavaScript arrays are mutable
references into a heap.  `[...state, v]` and `state.filter(p)` each
allocate a fresh array and leave the source array's cells untouched;
the default branch returns the input reference itself.  We model the heap
as a map from references (allocation order) to array contents, and the
reducer at the reference level.
-/

/-- A heap of JavaScript arrays: `next` is the next fresh reference,
`mem` gives each reference's current contents. -/
structure Heap where
  next : Nat
  mem : Nat → List JSVal

/-- A reference is valid when it was allocated earlier than `next`. -/
def Heap.valid (h : Heap) (r : Nat) : Prop := r < h.next

/-- Allocate a fresh array with contents `v`, returning the new heap and
the fresh reference. -/
def Heap.alloc (h : Heap) (v : List JSVal) : Heap × Nat :=
  (⟨h.next + 1, fun i => if i = h.next then v else h.mem i⟩, h.next)

/-- The reducer at the reference level: `ADD_TASK` and `DELETE_TASK`
allocate fresh arrays (spread and `filter` both build new arrays);
the default branch returns the input reference unchanged. -/
def reducerRef (h : Heap) (r : Nat) (action : Action) : Heap × Nat :=
  if action.type = "ADD_TASK" then
    h.alloc (h.mem r ++ [action.payload])
  else if action.type = "DELETE_TASK" then
    h.alloc ((h.mem r).filter (fun task => strictNeq task.titleProp action.payload))
  else
    (h, r)

/-! Helper lemmas shared by the claim theorems. -/

/-- The `ADD_TASK` branch appends the payload. -/
lemma reducer_add (state : List JSVal) (t : Task) :
    reducer state (addTask t) = state ++ [JSVal.vtask t] := by
  unfold reducer addTask
  rw [if_pos rfl]

/-- The `DELETE_TASK` branch filters by the strict-inequality test. -/
lemma reducer_delete (state : List JSVal) (k : String) :
    reducer state (deleteTask k)
      = state.filter (fun task => strictNeq task.titleProp (JSVal.vstr k)) := by
  show (if ("DELETE_TASK" : String) = "ADD_TASK" then state ++ [JSVal.vstr k]
        else if ("DELETE_TASK" : String) = "DELETE_TASK" then
          state.filter (fun task => strictNeq task.titleProp (JSVal.vstr k))
        else state)
      = state.filter (fun task => strictNeq task.titleProp (JSVal.vstr k))
  rw [if_neg (by decide), if_pos rfl]

/-- The default branch returns the state unchanged. -/
lemma reducer_default (state : List JSVal) (a : Action)
    (h1 : a.type ≠ "ADD_TASK") (h2 : a.type ≠ "DELETE_TASK") :
    reducer state a = state := by
  unfold reducer
  rw [if_neg h1, if_neg h2]

/-- On a state of task objects, the JS filter test coincides with
title inequality on tasks. -/
lemma filter_taskList (l : List Task) (k : String) :
    (taskList l).filter (fun task => strictNeq task.titleProp (JSVal.vstr k))
      = taskList (l.filter fun t => t.title ≠ k) := by
  induction l with
  | nil => rfl
  | cons a l ih =>
    by_cases h : a.title = k
    · simp [taskList, List.filter_cons, strictNeq, JSVal.titleProp, h] at *
      exact ih
    · simp [taskList, List.filter_cons, strictNeq, JSVal.titleProp, h] at *
      exact ih

/-- Counting: keeping the non-matching elements leaves exactly
`length minus the number of matching elements`. -/
lemma length_filter_ne (l : List Task) (k : String) :
    (l.filter fun t => t.title ≠ k).length
      = l.length - (l.filter fun t => t.title = k).length := by
  have key : (l.filter fun t => t.title ≠ k).length
      + (l.filter fun t => t.title = k).length = l.length := by
    induction l with
    | nil => simp
    | cons a l ih =>
      rw [List.filter_cons, List.filter_cons]
      by_cases h : a.title = k
      · rw [if_neg (by simp [h]), if_pos (by simp [h])]
        simp only [List.length_cons]
        omega
      · rw [if_pos (by simp [h]), if_neg (by simp [h])]
        simp only [List.length_cons]
        omega
  omega

/-- C1: `DeleteTask` with payload K on a task list L returns exactly the
elements of L whose title is not K, in their original relative order, with
length `len(L) - count(L, title == K)`; when no task has title K the
result equals L by value. -/
theorem deleteTask_removes_all_matching (l : List Task) (k : String) :
    reducer (taskList l) (deleteTask k) = taskList (l.filter fun t => t.title ≠ k)
    ∧ (reducer (taskList l) (deleteTask k)).length
        = l.length - (l.filter fun t => t.title = k).length
    ∧ ((∀ t ∈ l, t.title ≠ k) → reducer (taskList l) (deleteTask k) = taskList l) := by
  have h : reducer (taskList l) (deleteTask k)
      = taskList (l.filter fun t => t.title ≠ k) := by
    rw [reducer_delete, filter_taskList]
  refine ⟨h, ?_, ?_⟩
  · rw [h]
    simpa [taskList] using length_filter_ne l k
  · intro hnone
    rw [h, List.filter_eq_self.mpr]
    intro t ht
    simpa using hnone t ht

/-- C1 witness: spec scenario 2, deleting title "A" from
`[{A,""},{B,""}]` leaves `[{B,""}]`. -/
theorem deleteTask_removes_all_matching_witness :
    reducer (taskList [⟨"A", ""⟩, ⟨"B", ""⟩]) (deleteTask "A")
      = taskList [⟨"B", ""⟩] := by
  have h := deleteTask_removes_all_matching [⟨"A", ""⟩, ⟨"B", ""⟩] "A"
  rw [h.1]
  rfl

/-- C2: `AddTask` with payload T on a task list L returns a list of
length `len(L)+1` whose last element is T and whose first `len(L)`
elements are L, in order. -/
theorem addTask_appends_payload (l : List Task) (t : Task) :
    reducer (taskList l) (addTask t) = taskList (l ++ [t])
    ∧ (reducer (taskList l) (addTask t)).length = l.length + 1
    ∧ (reducer (taskList l) (addTask t)).getLast? = some (JSVal.vtask t)
    ∧ (reducer (taskList l) (addTask t)).take l.length = taskList l := by
  have h : reducer (taskList l) (addTask t) = taskList l ++ [JSVal.vtask t] :=
    reducer_add (taskList l) t
  have hlen : (taskList l).length = l.length := by simp [taskList]
  refine ⟨?_, ?_, ?_, ?_⟩
  · rw [h]; simp [taskList]
  · rw [h]; simp [taskList]
  · rw [h]; exact List.getLast?_concat _
  · rw [h, ← hlen, List.take_left]

/-- C3: any action whose tag is neither recognized variant takes the
default branch and returns the state unchanged (identity transition). -/
theorem unknown_action_identity (state : List JSVal) (a : Action)
    (h1 : a.type ≠ "ADD_TASK") (h2 : a.type ≠ "DELETE_TASK") :
    reducer state a = state :=
  reducer_default state a h1 h2

/-- C3 witness: a `"RESET"` action leaves a one-task list unchanged. -/
theorem unknown_action_identity_witness :
    reducer (taskList [⟨"A", "a"⟩]) ⟨"RESET", JSVal.vstr "x"⟩
      = taskList [⟨"A", "a"⟩] :=
  unknown_action_identity (taskList [⟨"A", "a"⟩]) ⟨"RESET", JSVal.vstr "x"⟩
    (by decide) (by decide)

/-- C4: the reducer is a total function: every call lands in exactly one
of the three branches and yields a result list; there is no raising,
throwing or failing path (no `Option`/`Except` is needed to embed it). -/
theorem reducer_total (state : List JSVal) (a : Action) :
    reducer state a = state ++ [a.payload]
    ∨ reducer state a
        = state.filter (fun task => strictNeq task.titleProp a.payload)
    ∨ reducer state a = state := by
  unfold reducer
  by_cases h1 : a.type = "ADD_TASK"
  · rw [if_pos h1]; exact Or.inl rfl
  · rw [if_neg h1]
    by_cases h2 : a.type = "DELETE_TASK"
    · rw [if_pos h2]; exact Or.inr (Or.inl rfl)
    · rw [if_neg h2]; exact Or.inr (Or.inr rfl)

/-- C5: `DeleteTask` is idempotent in its title argument: applying it
twice in succession equals applying it once. -/
theorem deleteTask_idempotent (state : List JSVal) (k : String) :
    reducer (reducer state (deleteTask k)) (deleteTask k)
      = reducer state (deleteTask k) := by
  rw [reducer_delete, reducer_delete, List.filter_filter]
  simp

/-- C6: the reducer is deterministic: equal state and action inputs give
equal outputs.  Side effects and I/O have no counterpart in the source
function (it only reads its arguments and builds a list), so it embeds as
a pure function and determinism is congruence of that function. -/
theorem reducer_deterministic (s1 s2 : List JSVal) (a1 a2 : Action)
    (hs : s1 = s2) (ha : a1 = a2) : reducer s1 a1 = reducer s2 a2 := by
  rw [hs, ha]

/-- C6 witness: two calls on equal concrete inputs agree. -/
theorem reducer_deterministic_witness :
    reducer (taskList []) (addTask ⟨"A", "a"⟩)
      = reducer (taskList []) (addTask ⟨"A", "a"⟩) :=
  reducer_deterministic (taskList []) (taskList []) (addTask ⟨"A", "a"⟩)
    (addTask ⟨"A", "a"⟩) rfl rfl

/-- C7: immutability contract, in the heap model of JS arrays: a call on
a valid array reference leaves the input array's contents unchanged, the
returned reference holds exactly the value-level reducer's result, and
the recognized actions return a fresh reference (a new list), never the
input one. -/
theorem reducer_preserves_input_array (h : Heap) (r : Nat) (a : Action)
    (hv : h.valid r) :
    ((reducerRef h r a).1).mem r = h.mem r
    ∧ ((reducerRef h r a).1).mem (reducerRef h r a).2 = reducer (h.mem r) a
    ∧ ((a.type = "ADD_TASK" ∨ a.type = "DELETE_TASK") →
        (reducerRef h r a).2 ≠ r) := by
  have hr : r ≠ h.next := Nat.ne_of_lt hv
  unfold reducerRef reducer Heap.alloc
  by_cases h1 : a.type = "ADD_TASK"
  · rw [if_pos h1, if_pos h1]
    exact ⟨by simp [hr], by simp, fun _ => Ne.symm hr⟩
  · rw [if_neg h1, if_neg h1]
    by_cases h2 : a.type = "DELETE_TASK"
    · rw [if_pos h2, if_pos h2]
      exact ⟨by simp [hr], by simp, fun _ => Ne.symm hr⟩
    · rw [if_neg h2, if_neg h2]
      exact ⟨rfl, rfl, fun hor => absurd hor (by simp [h1, h2])⟩

/-- C7 witness: adding a task to the array at reference 0 leaves the
contents stored at reference 0 unchanged. -/
theorem reducer_preserves_input_array_witness :
    ((reducerRef ⟨1, fun _ => taskList [⟨"A", "a"⟩]⟩ 0
        (addTask ⟨"B", "b"⟩)).1).mem 0 = taskList [⟨"A", "a"⟩] :=
  (reducer_preserves_input_array ⟨1, fun _ => taskList [⟨"A", "a"⟩]⟩ 0
    (addTask ⟨"B", "b"⟩) Nat.zero_lt_one).1

/-- C8: add-then-delete cancellation: adding T and then deleting T.title
equals deleting T.title directly; the composition restores L exactly when
L contained no task titled T.title. -/
theorem add_then_delete_cancels (l : List Task) (t : Task) :
    reducer (reducer (taskList l) (addTask t)) (deleteTask t.title)
      = reducer (taskList l) (deleteTask t.title)
    ∧ ((∀ u ∈ l, u.title ≠ t.title) →
        reducer (reducer (taskList l) (addTask t)) (deleteTask t.title)
          = taskList l)
    ∧ ((∃ u ∈ l, u.title = t.title) →
        reducer (reducer (taskList l) (addTask t)) (deleteTask t.title)
          ≠ taskList l) := by
  have hdel : reducer (taskList l) (deleteTask t.title)
      = taskList (l.filter fun u => u.title ≠ t.title) := by
    rw [reducer_delete, filter_taskList]
  have hmain : reducer (reducer (taskList l) (addTask t)) (deleteTask t.title)
      = reducer (taskList l) (deleteTask t.title) := by
    rw [reducer_add, reducer_delete, reducer_delete, List.filter_append]
    simp [strictNeq, JSVal.titleProp]
  have hinj : Function.Injective JSVal.vtask := fun a b hab => by
    injection hab
  refine ⟨hmain, ?_, ?_⟩
  · intro hnone
    rw [hmain, hdel, List.filter_eq_self.mpr]
    intro u hu
    simpa using hnone u hu
  · rintro ⟨u, hu, hut⟩ heq
    rw [hmain, hdel] at heq
    have hfl : (l.filter fun u => u.title ≠ t.title) = l :=
      (List.map_injective_iff.mpr hinj) heq
    have := List.filter_eq_self.mp hfl u hu
    simp [hut] at this

/-- C8 witness: with L containing a task titled "A", adding another task
titled "A" and then deleting "A" equals deleting "A" from L directly. -/
theorem add_then_delete_cancels_witness :
    reducer (reducer (taskList [⟨"A", "x"⟩]) (addTask ⟨"A", "y"⟩))
        (deleteTask "A")
      = reducer (taskList [⟨"A", "x"⟩]) (deleteTask "A") :=
  (add_then_delete_cancels [⟨"A", "x"⟩] ⟨"A", "y"⟩).1

/-- C9: no-fabrication invariant: every element of the output list is,
by value, an element of the input state, or the payload of the action
when and only when that action is an `ADD_TASK`; no branch rewrites a
stored task's fields or introduces any other value. -/
theorem reducer_no_fabrication (state : List JSVal) (a : Action) (v : JSVal)
    (hv : v ∈ reducer state a) :
    v ∈ state ∨ (a.type = "ADD_TASK" ∧ v = a.payload) := by
  unfold reducer at hv
  by_cases h1 : a.type = "ADD_TASK"
  · rw [if_pos h1] at hv
    rcases List.mem_append.mp hv with h | h
    · exact Or.inl h
    · exact Or.inr ⟨h1, List.mem_singleton.mp h⟩
  · rw [if_neg h1] at hv
    by_cases h2 : a.type = "DELETE_TASK"
    · rw [if_pos h2] at hv
      exact Or.inl (List.mem_of_mem_filter hv)
    · rw [if_neg h2] at hv
      exact Or.inl hv

/-- C9 witness: the task just added comes from the payload of an
`ADD_TASK` action. -/
theorem reducer_no_fabrication_witness :
    JSVal.vtask ⟨"B", "b"⟩ ∈ taskList [⟨"A", "a"⟩]
    ∨ ((addTask ⟨"B", "b"⟩).type = "ADD_TASK"
        ∧ JSVal.vtask ⟨"B", "b"⟩ = (addTask ⟨"B", "b"⟩).payload) :=
  reducer_no_fabrication (taskList [⟨"A", "a"⟩]) (addTask ⟨"B", "b"⟩)
    (JSVal.vtask ⟨"B", "b"⟩) (by decide)

/-- C10: action-tag matching is exact, case-sensitive string comparison
against "ADD_TASK" and "DELETE_TASK": case-variant tags such as
"add_task", "AddTask" or "delete_task" take the default branch, as does
every tag differing in any character. -/
theorem action_tag_match_exact (state : List JSVal) (p : JSVal) :
    reducer state ⟨"add_task", p⟩ = state
    ∧ reducer state ⟨"AddTask", p⟩ = state
    ∧ reducer state ⟨"delete_task", p⟩ = state
    ∧ (∀ ty : String, ty ≠ "ADD_TASK" → ty ≠ "DELETE_TASK" →
        reducer state ⟨ty, p⟩ = state) := by
  refine ⟨?_, ?_, ?_, fun ty h1 h2 => reducer_default state ⟨ty, p⟩ h1 h2⟩
  · exact reducer_default state ⟨"add_task", p⟩
      (show ("add_task" : String) ≠ "ADD_TASK" by decide)
      (show ("add_task" : String) ≠ "DELETE_TASK" by decide)
  · exact reducer_default state ⟨"AddTask", p⟩
      (show ("AddTask" : String) ≠ "ADD_TASK" by decide)
      (show ("AddTask" : String) ≠ "DELETE_TASK" by decide)
  · exact reducer_default state ⟨"delete_task", p⟩
      (show ("delete_task" : String) ≠ "ADD_TASK" by decide)
      (show ("delete_task" : String) ≠ "DELETE_TASK" by decide)

/-- C10 witness: a lowercase "add_task" action leaves a concrete list
unchanged. -/
theorem action_tag_match_exact_witness :
    reducer (taskList [⟨"A", "a"⟩]) ⟨"add_task", JSVal.vstr "A"⟩
      = taskList [⟨"A", "a"⟩] :=
  (action_tag_match_exact (taskList [⟨"A", "a"⟩]) (JSVal.vstr "A")).1

end TodoApp
